import Mathlib

/-!
Verification of the xlog structured-logging library (taro33333/xlog).

The Go source is shallowly embedded: text is `List Char` (Go strings are
sequences of runes here), `slog.Level` is `Int` (Debug = -4, Info = 0,
Warn = 4, Error = 8), `slog.Value` is a tagged union mirroring the kinds
the color handler distinguishes, and `io.Writer` / `sync.Mutex` references
are modelled by identity numbers so that sharing-by-reference is field
equality.  External collaborators (Go's `time` formatting, `Duration.String`,
`fmt %v` stringification, and the runtime PC-to-frame resolver) are modelled
as carried renderings / an explicit resolver function, since their code is
outside this repository.
-/

namespace Xlog

/-- Text is a sequence of runes, as produced by ranging over a Go string. -/
abbrev Str := List Char

/-- ANSI color code from the source constant block. -/
def colorReset : Str := "\x1b[0m".toList

/-- ANSI color code from the source constant block. -/
def colorRed : Str := "\x1b[31m".toList

/-- ANSI color code from the source constant block. -/
def colorGreen : Str := "\x1b[32m".toList

/-- ANSI color code from the source constant block. -/
def colorYellow : Str := "\x1b[33m".toList

/-- ANSI color code from the source constant block. -/
def colorBlue : Str := "\x1b[34m".toList

/-- ANSI color code from the source constant block. -/
def colorPurple : Str := "\x1b[35m".toList

/-- ANSI color code from the source constant block. -/
def colorCyan : Str := "\x1b[36m".toList

/-- ANSI color code from the source constant block. -/
def colorGray : Str := "\x1b[37m".toList

/-- ANSI color code from the source constant block. -/
def colorBold : Str := "\x1b[1m".toList

/-- slog.LevelDebug. -/
def LevelDebug : Int := -4

/-- slog.LevelInfo. -/
def LevelInfo : Int := 0

/-- slog.LevelWarn. -/
def LevelWarn : Int := 4

/-- slog.LevelError : Int. -/
def LevelError : Int := 8

/-- A Go `time.Time` as the color handler consumes it: Go's `time` formatting
is external to the repository, so a timestamp carries its renderings under
the three layouts the source applies to it. -/
structure GoTime where
  /-- `t.Format("2006-01-02 15:04:05")`, used by `ColorHandler.Handle`. -/
  handleFmt : Str
  /-- `t.Format("2006-01-02T15:04:05.000Z07:00")`, used by `formatValue`. -/
  valueFmt : Str
  /-- `t.String()`, used by `slog.Value.String` on a time value. -/
  stringFmt : Str
  deriving DecidableEq, Repr

mutual

/-- The type `slog.Value` as `ColorHandler` distinguishes it: `formatValue` switches on
KindString / KindTime / KindDuration / default, and `appendAttr` on KindGroup.
`nilv` is the zero `slog.Value` (KindAny holding nil); `anyv` covers every
other kind hitting the default branch and carries its `fmt %v` rendering,
`duration` carries its `Duration.String()` rendering (both external). -/
inductive Value : Type where
  | str : Str → Value
  | time : GoTime → Value
  | duration : Str → Value
  | nilv : Value
  | anyv : Str → Value
  | group : Attrs → Value

/-- A `[]slog.Attr`: an ordered sequence of key/value pairs. -/
inductive Attrs : Type where
  | nil : Attrs
  | cons : (key : Str) → (v : Value) → (rest : Attrs) → Attrs

end

deriving instance DecidableEq for Value

deriving instance DecidableEq for Attrs

/-- Concatenation of attribute sequences (Go slice `append`). -/
def Attrs.append : Attrs → Attrs → Attrs
  | .nil, b => b
  | .cons k v rest, b => .cons k v (Attrs.append rest b)

/-- Build an attribute sequence from a list of key/value pairs. -/
def Attrs.ofList : List (Str × Value) → Attrs
  | [] => .nil
  | (k, v) :: rest => .cons k v (Attrs.ofList rest)

/-- Whether a value is the zero `slog.Value` (`v.Equal(slog.Value{})`). -/
def isNilv : Value → Bool
  | .nilv => true
  | _ => false

/-- Whether a value has `slog.KindGroup`. -/
def isGroupVal : Value → Bool
  | .group _ => true
  | _ => false

/-- The test `a.Equal(slog.Attr\x7b\x7d)`: empty key and the zero value. -/
def isEmptyAttr (key : Str) (v : Value) : Bool :=
  decide (key = []) && isNilv v

/-- Function `needsQuoting` from the source: true iff the string contains a space,
double quote, equals sign, newline, carriage return or tab. -/
def needsQuoting (s : Str) : Bool :=
  s.any fun r =>
    r = ' ' || r = '"' || r = '=' || r = '\n' || r = '\r' || r = '\t'

/-- Lower-case hexadecimal digit character for a value below 16. -/
def hexDig (n : Nat) : Char :=
  if n < 10 then Char.ofNat (48 + n) else Char.ofNat (87 + n)

/-- Numeric value of a hexadecimal digit character. -/
def hexVal (c : Char) : Option Nat :=
  if 48 ≤ c.toNat ∧ c.toNat ≤ 57 then some (c.toNat - 48)
  else if 97 ≤ c.toNat ∧ c.toNat ≤ 102 then some (c.toNat - 87)
  else if 65 ≤ c.toNat ∧ c.toNat ≤ 70 then some (c.toNat - 55)
  else none

/-- Fixed-width big-endian hexadecimal rendering of `n` with `w` digits. -/
def hexFixed : Nat → Nat → Str
  | 0, _ => []
  | w + 1, n => hexFixed w (n / 16) ++ [hexDig (n % 16)]

/-- Read a run of hexadecimal digits, folding into an accumulator. -/
def hexAcc : Str → Nat → Option Nat
  | [], acc => some acc
  | c :: cs, acc =>
    match hexVal c with
    | some v => hexAcc cs (16 * acc + v)
    | none => none

/-- Escape of a single rune, modelling Go's `fmt.Sprintf("%q", s)`
(strconv.Quote) as the source applies it: named escapes for the quote,
backslash and the C control escapes, printable ASCII verbatim, `\x` escapes
below 0x80, and `\u`/`\U` escapes above.  (Go additionally prints printable
non-ASCII runes verbatim; emitting the equivalent `\u` escape instead does
not affect the quoting and round-trip properties stated below.) -/
def escChar (c : Char) : Str :=
  if c = '"' then ['\\', '"']
  else if c = '\\' then ['\\', '\\']
  else if c = '\n' then ['\\', 'n']
  else if c = '\r' then ['\\', 'r']
  else if c = '\t' then ['\\', 't']
  else if c = '\x07' then ['\\', 'a']
  else if c = '\x08' then ['\\', 'b']
  else if c = '\x0b' then ['\\', 'v']
  else if c = '\x0c' then ['\\', 'f']
  else if 0x20 ≤ c.toNat ∧ c.toNat ≤ 0x7e then [c]
  else if c.toNat < 0x80 then '\\' :: 'x' :: hexFixed 2 c.toNat
  else if c.toNat < 0x10000 then '\\' :: 'u' :: hexFixed 4 c.toNat
  else '\\' :: 'U' :: hexFixed 8 c.toNat

/-- Body of the quoted literal: every rune escaped in sequence. -/
def quoteBody : Str → Str
  | [] => []
  | c :: cs => escChar c ++ quoteBody cs

/-- The rendering `fmt.Sprintf("%q", s)`: the escaped body wrapped in double
quotes. -/
def goQuote (s : Str) : Str :=
  '"' :: quoteBody s ++ ['"']

/-- Inverse of a single-character named escape. -/
def simpleUnesc (c : Char) : Option Char :=
  if c = '"' then some '"'
  else if c = '\\' then some '\\'
  else if c = 'n' then some '\n'
  else if c = 'r' then some '\r'
  else if c = 't' then some '\t'
  else if c = 'a' then some '\x07'
  else if c = 'b' then some '\x08'
  else if c = 'v' then some '\x0b'
  else if c = 'f' then some '\x0c'
  else none

/-- Parse the body of a quoted literal up to and including the closing
double quote, un-escaping as it goes; fails on a malformed literal.  The
fuel argument bounds how many characters may be produced (one unit per
output character); a caller supplies at least the input length plus one. -/
def unquoteBodyF : Nat → Str → Option Str
  | 0, _ => none
  | _ + 1, [] => none
  | fuel + 1, c :: rest =>
    if c = '"' then (if rest = [] then some [] else none)
    else if c = '\\' then
      match rest with
      | [] => none
      | e :: rest1 =>
        if e = 'x' then
          match rest1 with
          | h1 :: h2 :: rest2 =>
            match hexAcc [h1, h2] 0 with
            | some n => (unquoteBodyF fuel rest2).map (Char.ofNat n :: ·)
            | none => none
          | _ => none
        else if e = 'u' then
          match rest1 with
          | h1 :: h2 :: h3 :: h4 :: rest2 =>
            match hexAcc [h1, h2, h3, h4] 0 with
            | some n => (unquoteBodyF fuel rest2).map (Char.ofNat n :: ·)
            | none => none
          | _ => none
        else if e = 'U' then
          match rest1 with
          | h1 :: h2 :: h3 :: h4 :: h5 :: h6 :: h7 :: h8 :: rest2 =>
            match hexAcc [h1, h2, h3, h4, h5, h6, h7, h8] 0 with
            | some n => (unquoteBodyF fuel rest2).map (Char.ofNat n :: ·)
            | none => none
          | _ => none
        else
          match simpleUnesc e with
          | some d => (unquoteBodyF fuel rest1).map (d :: ·)
          | none => none
    else (unquoteBodyF fuel rest).map (c :: ·)

/-- Un-quote a rendered quoted literal: strip the opening quote and parse
the escaped body up to the closing quote. -/
def goUnquote : Str → Option Str
  | '"' :: rest => unquoteBodyF (rest.length + 1) rest
  | _ => none



mutual

/-- The rendering `slog.Value.String()` as the handler's replacement-hook
path consumes it:
a string value yields the raw string; time and duration values yield their
(externally computed) `String()` renderings; any other kind yields its
`fmt %v` rendering, a group printing as a bracketed, space-separated list. -/
def valueString : Value → Str
  | .str s => s
  | .time t => t.stringFmt
  | .duration d => d
  | .nilv => "<nil>".toList
  | .anyv r => r
  | .group g => '[' :: groupFmt g ++ [']']

/-- The `fmt %v` body of a `[]slog.Attr`: `key=value` entries joined by
spaces. -/
def groupFmt : Attrs → Str
  | .nil => []
  | .cons k v .nil => k ++ '=' :: valueString v
  | .cons k v rest => k ++ '=' :: valueString v ++ ' ' :: groupFmt rest

end

/-- Function `formatValue` from the source: strings verbatim unless `needsQuoting`
(then `%q`-quoted); time and duration by their carried renderings; every
other kind by its `fmt %v` rendering. -/
def formatValue : Value → Str
  | .str s => if needsQuoting s then goQuote s else s
  | .time t => t.valueFmt
  | .duration d => d
  | .nilv => "<nil>".toList
  | .anyv r => r
  | .group g => '[' :: groupFmt g ++ [']']

/-- The key-building loop of `appendAttr`: `for _, g := range groups
\x7b key = g + "." + key \x7d`. -/
def buildKey (groups : List Str) (key : Str) : Str :=
  groups.foldl (fun k g => g ++ '.' :: k) key

/-- A non-group `slog.Value`, the shape a replacement hook may produce. -/
inductive LeafValue : Type where
  | str : Str → LeafValue
  | time : GoTime → LeafValue
  | duration : Str → LeafValue
  | nilv : LeafValue
  | anyv : Str → LeafValue
  deriving DecidableEq

/-- Embed a non-group value into `Value`. -/
def leafToValue : LeafValue → Value
  | .str s => .str s
  | .time t => .time t
  | .duration d => .duration d
  | .nilv => .nilv
  | .anyv r => .anyv r

/-- The `slog.HandlerOptions.ReplaceAttr` hook.  Modelled contract: the hook
either leaves an attribute unchanged (result `none`) or replaces it by a
non-group attribute.  This covers the only hook this repository installs
(`Init`'s development time-format hook, which maps the time attribute to a
string attribute and every other attribute to itself) and slog's documented
ReplaceAttr usage; a hook rewriting an attribute to a brand-new group value
would let the source's rendering loop recurse without bound and is outside
the model. -/
abbrev ReplaceFn := List Str → Str × Value → Option (Str × LeafValue)

/-- Outcome of the replacement-hook step inside `appendAttr`. -/
inductive HookRes : Type where
  | kept : HookRes
  | dropped : HookRes
  | replaced : Str → LeafValue → HookRes

/-- The hook step of `appendAttr`: no hook (or an unchanged attribute) keeps
the attribute; a hook output equal to the empty attribute drops it
(deliberate suppression); otherwise the attribute is replaced. -/
def hookResult (ra : Option ReplaceFn) (groups : List Str) (key : Str)
    (v : Value) : HookRes :=
  match ra with
  | none => .kept
  | some f =>
    match f groups (key, v) with
    | none => .kept
    | some (k2, lv) =>
      if isEmptyAttr k2 (leafToValue lv) then .dropped else .replaced k2 lv

/-- The effective attribute `appendAttr` renders: `none` when the attribute
is skipped (it equals the empty attribute, or the replacement hook drops
it), otherwise the post-hook attribute. -/
def effAttr (ra : Option ReplaceFn) (groups : List Str) (key : Str)
    (v : Value) : Option (Str × Value) :=
  if isEmptyAttr key v then none
  else
    match hookResult ra groups key v with
    | .kept => some (key, v)
    | .dropped => none
    | .replaced k2 lv => some (k2, leafToValue lv)

mutual

/-- Method `ColorHandler.appendAttr` from the source: skip empty attributes, apply
the replacement hook, prefix the key with the active group path, recurse
into group values (extending the path with the group's key and spacing the
children), and otherwise emit the colorized `key=value` fragment. -/
def appendAttr (ra : Option ReplaceFn) (buf : Str) (key : Str) (v : Value)
    (groups : List Str) : Str :=
  match isEmptyAttr key v with
  | true => buf
  | false =>
    match hookResult ra groups key v with
    | .dropped => buf
    | .replaced k2 lv =>
      buf ++ colorPurple ++ buildKey groups k2 ++ colorReset
        ++ '=' :: formatValue (leafToValue lv)
    | .kept =>
      match v with
      | .group g =>
        match g with
        | .nil => buf
        | .cons _ _ _ => appendGroupAttrs ra buf g (groups ++ [key]) true
      | v =>
        buf ++ colorPurple ++ buildKey groups key ++ colorReset
          ++ '=' :: formatValue v

/-- The child loop of the group branch of `appendAttr`: a space before a
child whenever it is not the first or the buffer is nonempty. -/
def appendGroupAttrs (ra : Option ReplaceFn) (buf : Str) (g : Attrs)
    (groups : List Str) (first : Bool) : Str :=
  match g with
  | .nil => buf
  | .cons k v rest =>
    let buf1 := if first = false ∨ buf ≠ [] then buf ++ [' '] else buf
    appendGroupAttrs ra (appendAttr ra buf1 k v groups) rest groups false

end

/-- The attribute pre-rendering loop of `ColorHandler.WithAttrs`: a space
between entries whenever the buffer is already nonempty. -/
def renderAttrList (ra : Option ReplaceFn) (buf : Str) (g : Attrs)
    (groups : List Str) : Str :=
  match g with
  | .nil => buf
  | .cons k v rest =>
    let buf1 := if buf ≠ [] then buf ++ [' '] else buf
    renderAttrList ra (appendAttr ra buf1 k v groups) rest groups

/-- The per-record attribute loop of `ColorHandler.Handle`: a space is
appended before every attribute. -/
def renderRecordAttrs (ra : Option ReplaceFn) (buf : Str) (g : Attrs)
    (groups : List Str) : Str :=
  match g with
  | .nil => buf
  | .cons k v rest =>
    renderRecordAttrs ra (appendAttr ra (buf ++ [' ']) k v groups) rest groups

/-- The options `slog.HandlerOptions` as `ColorHandler` consumes them. -/
structure HandlerOptions where
  addSource : Bool
  level : Option Int
  replaceAttr : Option ReplaceFn

/-- Structure `ColorHandler` from the source.  `output` and `mu` are the identities of
the shared `io.Writer` and `*sync.Mutex` references, so that
sharing-by-reference between derived handlers is equality of these fields. -/
structure ColorHandler where
  opts : HandlerOptions
  output : Nat
  mu : Nat
  attrs : Attrs
  groups : List Str
  preformat : Str

/-- A `slog.Record`: timestamp (`none` models a zero `time.Time`), level,
message, program-counter token and attribute sequence. -/
structure Record where
  time : Option GoTime
  level : Int
  message : Str
  pc : Nat
  attrs : Attrs

/-- Method `ColorHandler.Enabled` from the source: the minimum level defaults to
`slog.LevelInfo` when none is configured. -/
def ColorHandler.Enabled (h : ColorHandler) (level : Int) : Bool :=
  decide (h.opts.level.getD LevelInfo ≤ level)

/-- Method `ColorHandler.levelColor` from the source. -/
def levelColor (level : Int) : Str :=
  if LevelError ≤ level then colorRed
  else if LevelWarn ≤ level then colorYellow
  else if LevelInfo ≤ level then colorGreen
  else colorBlue

/-- Method `ColorHandler.levelString` from the source. -/
def levelString (level : Int) : Str :=
  if LevelError ≤ level then "ERR".toList
  else if LevelWarn ≤ level then "WRN".toList
  else if LevelInfo ≤ level then "INF".toList
  else "DBG".toList

/-- The index of the last `'/'` in a file path, if any: the source scans
indices from `len-1` down and stops at the first hit. -/
def lastSlashPos : Str → Option Nat
  | [] => none
  | c :: cs =>
    match lastSlashPos cs with
    | some i => some (i + 1)
    | none => if c = '/' then some 0 else none

/-- The filename-shortening loop of `formatSource`: the loop index runs
down only to 1 (`i > 0`), so only a `'/'` at a positive index splits. -/
def shortFile (file : Str) : Str :=
  match lastSlashPos file with
  | some i => if 1 ≤ i then file.drop (i + 1) else file
  | none => file

/-- The PC-to-frame mapping of `runtime.CallersFrames`, external to the
repository: a resolver yields the frame's file and line for a token. -/
abbrev Resolver := Nat → Str × Nat

/-- Method `ColorHandler.formatSource` from the source: `shortName:line` when the
resolved file is nonempty, otherwise the empty string. -/
def formatSource (resolve : Resolver) (pc : Nat) : Str :=
  let fr := resolve pc
  if fr.1 ≠ [] then shortFile fr.1 ++ ':' :: (Nat.repr fr.2).toList else []

/-- The key `slog.TimeKey`. -/
def TimeKey : Str := "time".toList

/-- The timestamp section of `ColorHandler.Handle`: nothing for a zero
time; otherwise the gray-wrapped rendering, through the replacement hook
when one is configured, followed by a space. -/
def timeFragment (ra : Option ReplaceFn) (t : Option GoTime) : Str :=
  match t with
  | none => []
  | some t =>
    let ts :=
      match ra with
      | some f =>
        match f [] (TimeKey, .time t) with
        | some (_, lv) => valueString (leafToValue lv)
        | none => valueString (.time t)
      | none => t.handleFmt
    colorGray ++ ts ++ colorReset ++ [' ']

/-- The level-badge section of `ColorHandler.Handle`. -/
def levelFragment (level : Int) : Str :=
  levelColor level ++ levelString level ++ colorReset ++ [' ']

/-- The call-site section of `ColorHandler.Handle`: present exactly when
source locations are enabled and the record's PC token is nonzero. -/
def sourceFragment (resolve : Resolver) (addSource : Bool) (pc : Nat) : Str :=
  if addSource = true ∧ pc ≠ 0 then
    colorCyan ++ formatSource resolve pc ++ colorReset ++ [' ']
  else []

/-- The bold message section of `ColorHandler.Handle`. -/
def messageFragment (msg : Str) : Str :=
  colorBold ++ msg ++ colorReset

/-- The pre-formatted bound-attribute section of `ColorHandler.Handle`. -/
def preformatFragment (p : Str) : Str :=
  if p ≠ [] then ' ' :: p else []

/-- Method `ColorHandler.Handle` from the source, as the full line it
writes:
timestamp, level badge, call-site, message, pre-formatted bound attributes,
per-record attributes, and a terminating newline. -/
def ColorHandler.Handle (resolve : Resolver) (h : ColorHandler)
    (r : Record) : Str :=
  renderRecordAttrs h.opts.replaceAttr
    (timeFragment h.opts.replaceAttr r.time
      ++ levelFragment r.level
      ++ sourceFragment resolve h.opts.addSource r.pc
      ++ messageFragment r.message
      ++ preformatFragment h.preformat)
    r.attrs h.groups ++ ['\n']

/-- The sink: `output.Write` returns an error or nil, modelled as a pure
function from the written bytes to an optional error. -/
abbrev Sink (E : Type) := Str → Option E

/-- Method `ColorHandler.Handle` including its locked write: the list of write
calls made on the sink, and the error value the method returns. -/
def ColorHandler.HandleRun {E : Type} (resolve : Resolver) (sink : Sink E)
    (h : ColorHandler) (r : Record) : List Str × Option E :=
  let buf := ColorHandler.Handle resolve h r
  ([buf], sink buf)

/-- The preformat-concatenation step of `WithAttrs`: when the newly
rendered text is nonempty, append it to the bound text with a separating
space (no space when the bound text was empty); otherwise keep the bound
text. -/
def joinPre (p buf : Str) : Str :=
  if buf ≠ [] then (if p ≠ [] then p ++ [' '] else p) ++ buf else p

/-- Method `ColorHandler.WithAttrs` from the source: pre-render the new attributes
under the current group path and concatenate onto the bound text. -/
def ColorHandler.WithAttrs (h : ColorHandler) (as : Attrs) : ColorHandler :=
  let buf := renderAttrList h.opts.replaceAttr [] as h.groups
  { opts := h.opts, output := h.output, mu := h.mu,
    attrs := Attrs.append h.attrs as, groups := h.groups,
    preformat := joinPre h.preformat buf }

/-- Method `ColorHandler.WithGroup` from the source: the empty name returns the
receiver itself; otherwise a copy with the name appended to the group path. -/
def ColorHandler.WithGroup (h : ColorHandler) (name : Str) : ColorHandler :=
  if name = [] then h
  else
    { opts := h.opts, output := h.output, mu := h.mu,
      attrs := h.attrs, groups := h.groups ++ [name], preformat := h.preformat }

/-- The ambient propagation context: `ctx.Value(key)` for the recognized
string-typed keys, `none` modelling nil (absent). -/
abbrev Ctx := Str → Option Value

/-- The extraction loop of `ContextHandler.Handle`: for each recognized key
in configured order, a present context value becomes an attribute. -/
def extractCtx (ctxv : Ctx) : List Str → Attrs
  | [] => .nil
  | k :: ks =>
    match ctxv k with
    | some v => .cons k v (extractCtx ctxv ks)
    | none => extractCtx ctxv ks

/-- Method `ContextHandler.Handle` from the source, as the record it passes to the
wrapped handler: context attributes, when any were found, are placed ahead
of the record's own attributes on a fresh record carrying the same time,
level, message and PC; otherwise the record passes through unmodified. -/
def ContextHandler.Handle (keys : List Str) (ctxv : Ctx) (r : Record) :
    Record :=
  match extractCtx ctxv keys with
  | .nil => r
  | .cons k v rest =>
    { time := r.time, level := r.level, message := r.message, pc := r.pc,
      attrs := Attrs.append (.cons k v rest) r.attrs }

/-- Function `logWithCaller` from the source, as the list of lines written
to the
sink: nothing when the level is below the handler chain's minimum
(`logger.Enabled` delegates through `ContextHandler.Enabled` to
`ColorHandler.Enabled`); otherwise the write calls of the single
`Handler().Handle` invocation on the context-augmented record.  The error
`Handle` returns is assigned to the blank identifier and discarded, so the
function's result never depends on it. -/
def logWithCaller {E : Type} (resolve : Resolver) (sink : Sink E)
    (keys : List Str) (ctxv : Ctx) (h : ColorHandler) (level : Int)
    (now : GoTime) (pc : Nat) (msg : Str) (attrs : Attrs) : List Str :=
  if ColorHandler.Enabled h level then
    (ColorHandler.HandleRun resolve sink h
      (ContextHandler.Handle keys ctxv
        { time := some now, level := level, message := msg, pc := pc,
          attrs := attrs })).1
  else []

/-- The free function `Debug`: `logWithCaller` at `slog.LevelDebug`. -/
def Debug {E : Type} (resolve : Resolver) (sink : Sink E) (keys : List Str)
    (ctxv : Ctx) (h : ColorHandler) (now : GoTime) (pc : Nat) (msg : Str)
    (attrs : Attrs) : List Str :=
  logWithCaller resolve sink keys ctxv h LevelDebug now pc msg attrs

/-- The free function `Info`: `logWithCaller` at `slog.LevelInfo`. -/
def Info {E : Type} (resolve : Resolver) (sink : Sink E) (keys : List Str)
    (ctxv : Ctx) (h : ColorHandler) (now : GoTime) (pc : Nat) (msg : Str)
    (attrs : Attrs) : List Str :=
  logWithCaller resolve sink keys ctxv h LevelInfo now pc msg attrs

/-- The free function `Warn`: `logWithCaller` at `slog.LevelWarn`. -/
def Warn {E : Type} (resolve : Resolver) (sink : Sink E) (keys : List Str)
    (ctxv : Ctx) (h : ColorHandler) (now : GoTime) (pc : Nat) (msg : Str)
    (attrs : Attrs) : List Str :=
  logWithCaller resolve sink keys ctxv h LevelWarn now pc msg attrs

/-- The free function `Error`: `logWithCaller` at `slog.LevelError`. -/
def Error {E : Type} (resolve : Resolver) (sink : Sink E) (keys : List Str)
    (ctxv : Ctx) (h : ColorHandler) (now : GoTime) (pc : Nat) (msg : Str)
    (attrs : Attrs) : List Str :=
  logWithCaller resolve sink keys ctxv h LevelError now pc msg attrs


/-! Specification-side companions used by the theorems below. -/

mutual

/-- The text `appendAttr` appends when the buffer it extends is nonempty:
the same branches as `appendAttr`, with the group loop spacing every child
(a nonempty buffer stays nonempty, so the space condition always holds). -/
def appendAttrNE (ra : Option ReplaceFn) (key : Str) (v : Value)
    (groups : List Str) : Str :=
  match isEmptyAttr key v with
  | true => []
  | false =>
    match hookResult ra groups key v with
    | .dropped => []
    | .replaced k2 lv =>
      colorPurple ++ buildKey groups k2 ++ colorReset
        ++ '=' :: formatValue (leafToValue lv)
    | .kept =>
      match v with
      | .group g =>
        match g with
        | .nil => []
        | .cons _ _ _ => attrsNE ra g (groups ++ [key])
      | v =>
        colorPurple ++ buildKey groups key ++ colorReset
          ++ '=' :: formatValue v

/-- The text a group's child loop appends past a nonempty buffer. -/
def attrsNE (ra : Option ReplaceFn) (g : Attrs) (groups : List Str) : Str :=
  match g with
  | .nil => []
  | .cons k v rest =>
    (' ' :: appendAttrNE ra k v groups) ++ attrsNE ra rest groups

end

/-- The condition under which binding attributes composes: the sequence is
empty, or its first attribute survives skipping and the replacement hook as
a non-group attribute (so it renders as a flat `key=value` fragment). -/
def flatHead (ra : Option ReplaceFn) (groups : List Str) : Attrs → Prop
  | .nil => True
  | .cons k v _ =>
    ∃ k2 v2, effAttr ra groups k v = some (k2, v2) ∧ isGroupVal v2 = false

mutual

/-- Newline-freeness of a value's external renderings: string values are
always safe (quoting escapes control characters), and the carried
time/duration/`%v` renderings must be newline-free. -/
def nlOkValue : Value → Bool
  | .str _ => true
  | .time t => decide ('\n' ∉ t.valueFmt)
  | .duration d => decide ('\n' ∉ d)
  | .nilv => true
  | .anyv r => decide ('\n' ∉ r)
  | .group g => nlOkAttrs g

/-- Newline-freeness of an attribute sequence: keys and values. -/
def nlOkAttrs : Attrs → Bool
  | .nil => true
  | .cons k v rest => decide ('\n' ∉ k) && nlOkValue v && nlOkAttrs rest

end

/-- Join a list of names with `'.'`. -/
def dotJoin : List Str → Str
  | [] => []
  | [x] => x
  | x :: rest => x ++ '.' :: dotJoin rest


/-! Sample data shared by witnesses and counterexamples. -/

/-- Handler options with no minimum level, no source, no hook. -/
def sampleOpts : HandlerOptions :=
  { addSource := false, level := none, replaceAttr := none }

/-- A freshly constructed color handler over writer 0 and lock 0. -/
def sampleHandler : ColorHandler :=
  { opts := sampleOpts, output := 0, mu := 0, attrs := .nil, groups := [],
    preformat := [] }

/-- A sample timestamp carrying single-letter renderings. -/
def sampleTime : GoTime :=
  { handleFmt := ['T'], valueFmt := ['V'], stringFmt := ['S'] }

/-- A sample record with one string attribute. -/
def sampleRecord : Record :=
  { time := none, level := 0, message := ['m'], pc := 0,
    attrs := .cons ['k'] (.str ['v']) .nil }

/-- A sample context carrying only a trace id. -/
def sampleCtx : Ctx := fun k =>
  if k = "trace_id".toList then some (.str "t1".toList) else none


theorem hexVal_hexDig : ∀ n : Nat, n < 16 → hexVal (hexDig n) = some n := by
  decide

theorem hexAcc_append (xs ys : Str) (acc : Nat) :
    hexAcc (xs ++ ys) acc = (hexAcc xs acc).bind fun a => hexAcc ys a := by
  induction xs generalizing acc with
  | nil => simp [hexAcc]
  | cons c cs ih =>
    simp only [List.cons_append, hexAcc]
    rcases h : hexVal c with _ | v <;> simp [h, ih]

theorem hexAcc_hexFixed :
    ∀ (w n acc : Nat), n < 16 ^ w →
      hexAcc (hexFixed w n) acc = some (acc * 16 ^ w + n) := by
  intro w
  induction w with
  | zero =>
    intro n acc h
    have : n = 0 := by omega
    subst this
    simp [hexFixed, hexAcc]
  | succ w ih =>
    intro n acc h
    have hdiv : n / 16 < 16 ^ w := by
      rw [Nat.div_lt_iff_lt_mul (by norm_num)]
      calc n < 16 ^ (w + 1) := h
        _ = 16 ^ w * 16 := by ring
    have hmod : n % 16 < 16 := Nat.mod_lt _ (by norm_num)
    rw [hexFixed, hexAcc_append, ih (n / 16) acc hdiv]
    show hexAcc [hexDig (n % 16)] (acc * 16 ^ w + n / 16) = _
    simp only [hexAcc, hexVal_hexDig (n % 16) hmod]
    congr 1
    have hd : 16 * (n / 16) + n % 16 = n := Nat.div_add_mod n 16
    calc 16 * (acc * 16 ^ w + n / 16) + n % 16
        = acc * (16 ^ w * 16) + (16 * (n / 16) + n % 16) := by ring
      _ = acc * 16 ^ (w + 1) + n := by rw [hd, ← pow_succ]

theorem hexFixed_two (n : Nat) :
    hexFixed 2 n = [hexDig (n / 16 % 16), hexDig (n % 16)] := by
  simp [hexFixed]

theorem hexFixed_four (n : Nat) :
    hexFixed 4 n = [hexDig (n / 16 / 16 / 16 % 16), hexDig (n / 16 / 16 % 16),
      hexDig (n / 16 % 16), hexDig (n % 16)] := by
  simp [hexFixed]

theorem hexFixed_eight (n : Nat) :
    hexFixed 8 n = [hexDig (n / 16 / 16 / 16 / 16 / 16 / 16 / 16 % 16),
      hexDig (n / 16 / 16 / 16 / 16 / 16 / 16 % 16),
      hexDig (n / 16 / 16 / 16 / 16 / 16 % 16),
      hexDig (n / 16 / 16 / 16 / 16 % 16),
      hexDig (n / 16 / 16 / 16 % 16), hexDig (n / 16 / 16 % 16),
      hexDig (n / 16 % 16), hexDig (n % 16)] := by
  simp [hexFixed]

theorem unquoteBodyF_plain (fuel : Nat) (c : Char) (rest : Str)
    (hq : c ≠ '"') (hb : c ≠ '\\') :
    unquoteBodyF (fuel + 1) (c :: rest) =
      (unquoteBodyF fuel rest).map (c :: ·) := by
  rw [unquoteBodyF.eq_def]
  dsimp only
  rw [if_neg hq, if_neg hb]

theorem unquoteBodyF_simpleEsc (fuel : Nat) (e d : Char) (rest : Str)
    (he : simpleUnesc e = some d) (hx : e ≠ 'x') (hu : e ≠ 'u')
    (hU : e ≠ 'U') :
    unquoteBodyF (fuel + 1) ('\\' :: e :: rest) =
      (unquoteBodyF fuel rest).map (d :: ·) := by
  rw [unquoteBodyF.eq_def]
  dsimp only
  rw [if_neg (by decide : ¬('\\' = '"')), if_pos rfl, if_neg hx, if_neg hu,
    if_neg hU, he]

theorem unquoteBodyF_escX (fuel : Nat) (d1 d2 : Char) (n : Nat) (rest : Str)
    (hacc : hexAcc [d1, d2] 0 = some n) :
    unquoteBodyF (fuel + 1) ('\\' :: 'x' :: d1 :: d2 :: rest) =
      (unquoteBodyF fuel rest).map (Char.ofNat n :: ·) := by
  rw [unquoteBodyF.eq_def]
  dsimp only
  rw [if_neg (by decide : ¬('\\' = '"')), if_pos rfl, if_pos rfl, hacc]

theorem unquoteBodyF_escU4 (fuel : Nat) (d1 d2 d3 d4 : Char) (n : Nat)
    (rest : Str) (hacc : hexAcc [d1, d2, d3, d4] 0 = some n) :
    unquoteBodyF (fuel + 1) ('\\' :: 'u' :: d1 :: d2 :: d3 :: d4 :: rest) =
      (unquoteBodyF fuel rest).map (Char.ofNat n :: ·) := by
  rw [unquoteBodyF.eq_def]
  dsimp only
  rw [if_neg (by decide : ¬('\\' = '"')), if_pos rfl,
    if_neg (by decide : ¬('u' = 'x')), if_pos rfl, hacc]

theorem unquoteBodyF_escU8 (fuel : Nat) (d1 d2 d3 d4 d5 d6 d7 d8 : Char)
    (n : Nat) (rest : Str)
    (hacc : hexAcc [d1, d2, d3, d4, d5, d6, d7, d8] 0 = some n) :
    unquoteBodyF (fuel + 1)
        ('\\' :: 'U' :: d1 :: d2 :: d3 :: d4 :: d5 :: d6 :: d7 :: d8 :: rest) =
      (unquoteBodyF fuel rest).map (Char.ofNat n :: ·) := by
  rw [unquoteBodyF.eq_def]
  dsimp only
  rw [if_neg (by decide : ¬('\\' = '"')), if_pos rfl,
    if_neg (by decide : ¬('U' = 'x')), if_neg (by decide : ¬('U' = 'u')),
    if_pos rfl, hacc]

theorem unquoteBodyF_escChar (fuel : Nat) (c : Char) (rest : Str) :
    unquoteBodyF (fuel + 1) (escChar c ++ rest) =
      (unquoteBodyF fuel rest).map (c :: ·) := by
  unfold escChar
  by_cases h1 : c = '"'
  · subst h1
    rw [if_pos rfl]
    exact unquoteBodyF_simpleEsc fuel '"' '"' rest rfl
      (by decide) (by decide) (by decide)
  rw [if_neg h1]
  by_cases h2 : c = '\\'
  · subst h2
    rw [if_pos rfl]
    exact unquoteBodyF_simpleEsc fuel '\\' '\\' rest rfl
      (by decide) (by decide) (by decide)
  rw [if_neg h2]
  by_cases h3 : c = '\n'
  · subst h3
    rw [if_pos rfl]
    exact unquoteBodyF_simpleEsc fuel 'n' '\n' rest rfl
      (by decide) (by decide) (by decide)
  rw [if_neg h3]
  by_cases h4 : c = '\r'
  · subst h4
    rw [if_pos rfl]
    exact unquoteBodyF_simpleEsc fuel 'r' '\r' rest rfl
      (by decide) (by decide) (by decide)
  rw [if_neg h4]
  by_cases h5 : c = '\t'
  · subst h5
    rw [if_pos rfl]
    exact unquoteBodyF_simpleEsc fuel 't' '\t' rest rfl
      (by decide) (by decide) (by decide)
  rw [if_neg h5]
  by_cases h6 : c = '\x07'
  · subst h6
    rw [if_pos rfl]
    exact unquoteBodyF_simpleEsc fuel 'a' '\x07' rest rfl
      (by decide) (by decide) (by decide)
  rw [if_neg h6]
  by_cases h7 : c = '\x08'
  · subst h7
    rw [if_pos rfl]
    exact unquoteBodyF_simpleEsc fuel 'b' '\x08' rest rfl
      (by decide) (by decide) (by decide)
  rw [if_neg h7]
  by_cases h8 : c = '\x0b'
  · subst h8
    rw [if_pos rfl]
    exact unquoteBodyF_simpleEsc fuel 'v' '\x0b' rest rfl
      (by decide) (by decide) (by decide)
  rw [if_neg h8]
  by_cases h9 : c = '\x0c'
  · subst h9
    rw [if_pos rfl]
    exact unquoteBodyF_simpleEsc fuel 'f' '\x0c' rest rfl
      (by decide) (by decide) (by decide)
  rw [if_neg h9]
  by_cases h10 : 0x20 ≤ c.toNat ∧ c.toNat ≤ 0x7e
  · rw [if_pos h10, List.cons_append, List.nil_append]
    exact unquoteBodyF_plain fuel c rest h1 h2
  rw [if_neg h10]
  by_cases h11 : c.toNat < 0x80
  · rw [if_pos h11, hexFixed_two]
    rw [show ('\\' :: 'x' :: [hexDig (c.toNat / 16 % 16), hexDig (c.toNat % 16)])
        ++ rest = '\\' :: 'x' :: hexDig (c.toNat / 16 % 16)
        :: hexDig (c.toNat % 16) :: rest from rfl]
    rw [unquoteBodyF_escX fuel _ _ c.toNat rest
      (by rw [← hexFixed_two]; simpa using hexAcc_hexFixed 2 c.toNat 0 (by omega)),
      Char.ofNat_toNat]
  rw [if_neg h11]
  by_cases h12 : c.toNat < 0x10000
  · rw [if_pos h12, hexFixed_four]
    rw [show ('\\' :: 'u' :: [hexDig (c.toNat / 16 / 16 / 16 % 16),
        hexDig (c.toNat / 16 / 16 % 16), hexDig (c.toNat / 16 % 16),
        hexDig (c.toNat % 16)]) ++ rest
        = '\\' :: 'u' :: hexDig (c.toNat / 16 / 16 / 16 % 16)
          :: hexDig (c.toNat / 16 / 16 % 16) :: hexDig (c.toNat / 16 % 16)
          :: hexDig (c.toNat % 16) :: rest from rfl]
    rw [unquoteBodyF_escU4 fuel _ _ _ _ c.toNat rest
      (by rw [← hexFixed_four]; simpa using hexAcc_hexFixed 4 c.toNat 0 (by omega)),
      Char.ofNat_toNat]
  rw [if_neg h12, hexFixed_eight]
  have hlt : c.toNat < 4294967296 := c.val.val.isLt
  rw [show ('\\' :: 'U' :: [hexDig (c.toNat / 16 / 16 / 16 / 16 / 16 / 16 / 16 % 16),
      hexDig (c.toNat / 16 / 16 / 16 / 16 / 16 / 16 % 16),
      hexDig (c.toNat / 16 / 16 / 16 / 16 / 16 % 16),
      hexDig (c.toNat / 16 / 16 / 16 / 16 % 16),
      hexDig (c.toNat / 16 / 16 / 16 % 16), hexDig (c.toNat / 16 / 16 % 16),
      hexDig (c.toNat / 16 % 16), hexDig (c.toNat % 16)]) ++ rest
      = '\\' :: 'U' :: hexDig (c.toNat / 16 / 16 / 16 / 16 / 16 / 16 / 16 % 16)
        :: hexDig (c.toNat / 16 / 16 / 16 / 16 / 16 / 16 % 16)
        :: hexDig (c.toNat / 16 / 16 / 16 / 16 / 16 % 16)
        :: hexDig (c.toNat / 16 / 16 / 16 / 16 % 16)
        :: hexDig (c.toNat / 16 / 16 / 16 % 16)
        :: hexDig (c.toNat / 16 / 16 % 16)
        :: hexDig (c.toNat / 16 % 16) :: hexDig (c.toNat % 16) :: rest from rfl]
  rw [unquoteBodyF_escU8 fuel _ _ _ _ _ _ _ _ c.toNat rest
    (by rw [← hexFixed_eight]; simpa using hexAcc_hexFixed 8 c.toNat 0 hlt),
    Char.ofNat_toNat]

theorem escChar_shape (c : Char) : ∃ d t, escChar c = d :: t := by
  unfold escChar
  by_cases h1 : c = '"'
  · rw [if_pos h1]; exact ⟨_, _, rfl⟩
  rw [if_neg h1]
  by_cases h2 : c = '\\'
  · rw [if_pos h2]; exact ⟨_, _, rfl⟩
  rw [if_neg h2]
  by_cases h3 : c = '\n'
  · rw [if_pos h3]; exact ⟨_, _, rfl⟩
  rw [if_neg h3]
  by_cases h4 : c = '\r'
  · rw [if_pos h4]; exact ⟨_, _, rfl⟩
  rw [if_neg h4]
  by_cases h5 : c = '\t'
  · rw [if_pos h5]; exact ⟨_, _, rfl⟩
  rw [if_neg h5]
  by_cases h6 : c = '\x07'
  · rw [if_pos h6]; exact ⟨_, _, rfl⟩
  rw [if_neg h6]
  by_cases h7 : c = '\x08'
  · rw [if_pos h7]; exact ⟨_, _, rfl⟩
  rw [if_neg h7]
  by_cases h8 : c = '\x0b'
  · rw [if_pos h8]; exact ⟨_, _, rfl⟩
  rw [if_neg h8]
  by_cases h9 : c = '\x0c'
  · rw [if_pos h9]; exact ⟨_, _, rfl⟩
  rw [if_neg h9]
  by_cases h10 : 0x20 ≤ c.toNat ∧ c.toNat ≤ 0x7e
  · rw [if_pos h10]; exact ⟨_, _, rfl⟩
  rw [if_neg h10]
  by_cases h11 : c.toNat < 0x80
  · rw [if_pos h11]; exact ⟨_, _, rfl⟩
  rw [if_neg h11]
  by_cases h12 : c.toNat < 0x10000
  · rw [if_pos h12]; exact ⟨_, _, rfl⟩
  rw [if_neg h12]; exact ⟨_, _, rfl⟩

theorem le_length_quoteBody (s : Str) : s.length ≤ (quoteBody s).length := by
  induction s with
  | nil => simp [quoteBody]
  | cons c cs ih =>
    obtain ⟨d, t, hdt⟩ := escChar_shape c
    simp only [quoteBody, List.length_append, List.length_cons, hdt]
    omega

theorem unquoteBodyF_quoteBody :
    ∀ (s : Str) (fuel : Nat), s.length ≤ fuel →
      unquoteBodyF (fuel + 1) (quoteBody s ++ ['"']) = some s := by
  intro s
  induction s with
  | nil => intro fuel _; simp [quoteBody, unquoteBodyF]
  | cons c cs ih =>
    intro fuel hf
    cases fuel with
    | zero => simp at hf
    | succ f =>
      simp only [quoteBody, List.append_assoc]
      rw [unquoteBodyF_escChar, ih f (by simpa using hf)]
      rfl

theorem goUnquote_goQuote (s : Str) : goUnquote (goQuote s) = some s := by
  rw [goQuote]
  show unquoteBodyF ((quoteBody s ++ ['"']).length + 1) (quoteBody s ++ ['"'])
    = some s
  have hlen : s.length ≤ (quoteBody s ++ ['"']).length := by
    have := le_length_quoteBody s
    simp only [List.length_append, List.length_cons, List.length_nil]
    omega
  exact unquoteBodyF_quoteBody s _ hlen

/-! Helper lemmas about the dotted key path. -/

theorem dotJoin_cons (x : Str) (rest : List Str) (h : rest ≠ []) :
    dotJoin (x :: rest) = x ++ '.' :: dotJoin rest := by
  cases rest with
  | nil => exact absurd rfl h
  | cons y t => rfl

theorem dotJoin_append_pair (xs : List Str) (a b : Str) :
    dotJoin (xs ++ [a, b]) = dotJoin (xs ++ [a ++ '.' :: b]) := by
  induction xs with
  | nil => rfl
  | cons x xs ih =>
    rw [List.cons_append, List.cons_append, dotJoin_cons x _ (by simp),
      dotJoin_cons x _ (by simp), ih]

theorem buildKey_eq_dotJoin (groups : List Str) (key : Str) :
    buildKey groups key = dotJoin (groups.reverse ++ [key]) := by
  induction groups generalizing key with
  | nil => rfl
  | cons g gs ih =>
    have hstep : buildKey (g :: gs) key = buildKey gs (g ++ '.' :: key) := rfl
    rw [hstep, ih, ← dotJoin_append_pair]
    simp

/-! Claim C1. -/

/-- Claim C1 counterexample: with active group path `[a, b]` (outermost
first), the rendered key of attribute `k` is `b.a.k`, not the claimed
`a.b.k` — the loop prepends each group in order, reversing the path. -/
theorem c1_counterexample :
    appendAttr none [] ['k'] (.anyv ['1']) [['a'], ['b']] =
      colorPurple ++ "b.a.k".toList ++ colorReset ++ '=' :: ['1'] ∧
    appendAttr none [] ['k'] (.anyv ['1']) [['a'], ['b']] ≠
      colorPurple ++ "a.b.k".toList ++ colorReset ++ '=' :: ['1'] := by
  decide

/-- Claim C1 (amended): with no replacement hook, a non-empty, non-group
attribute rendered under active group path `[g1, ..., gn]` gets the key
`gn.g(n-1).....g1.key` — the group names joined with `'.'` in
innermost-to-outermost order (the reverse of the bind order), followed by
the attribute key, as the colorized `key=value` fragment appended to the
buffer.  (Descent into a group-kind value appends the group's key to the
path, so deeper descendants follow the same reversed-join rule.) -/
theorem c1_amended (buf key : Str) (v : Value) (groups : List Str)
    (hne : isEmptyAttr key v = false) (hng : isGroupVal v = false) :
    appendAttr none buf key v groups =
      buf ++ colorPurple ++ dotJoin (groups.reverse ++ [key]) ++ colorReset
        ++ '=' :: formatValue v := by
  have hni : ∀ a : Attrs, v = Value.group a → False := by
    intro a ha
    rw [ha] at hng
    simp [isGroupVal] at hng
  rw [appendAttr.eq_3 none buf key v groups hni, hne]
  dsimp only [hookResult]
  rw [buildKey_eq_dotJoin]

/-- Claim C1 witness: the amended statement evaluated on a concrete
attribute under the concrete path `[a, b]`. -/
theorem c1_amended_witness :
    appendAttr none [] ['k'] (.anyv ['1']) [['a'], ['b']] =
      [] ++ colorPurple ++ dotJoin ([['a'], ['b']].reverse ++ [['k']])
        ++ colorReset ++ '=' :: formatValue (.anyv ['1']) :=
  c1_amended [] ['k'] (.anyv ['1']) [['a'], ['b']] (by decide) (by decide)

/-! Claim C3. -/

/-- Claim C3: a string attribute value with none of space, quote, equals,
newline, carriage return, tab renders verbatim; any other string renders as
the `%q`-quoted literal, and un-quoting the rendered fragment recovers the
original string exactly. -/
theorem c3_string_roundtrip (s : Str) :
    (needsQuoting s = false → formatValue (.str s) = s) ∧
    (needsQuoting s = true →
      formatValue (.str s) = goQuote s ∧
      goUnquote (formatValue (.str s)) = some s) := by
  constructor
  · intro h; simp [formatValue, h]
  · intro h
    constructor
    · simp [formatValue, h]
    · simp [formatValue, h, goUnquote_goQuote]

/-- Claim C3 witness: a plain string renders verbatim; a string with a
space and a quote renders quoted and un-quotes back to itself. -/
theorem c3_string_roundtrip_witness :
    formatValue (.str "abc".toList) = "abc".toList ∧
    formatValue (.str "a \"b".toList) = goQuote "a \"b".toList ∧
    goUnquote (formatValue (.str "a \"b".toList)) = some "a \"b".toList :=
  ⟨(c3_string_roundtrip "abc".toList).1 (by decide),
   ((c3_string_roundtrip "a \"b".toList).2 (by decide)).1,
   ((c3_string_roundtrip "a \"b".toList).2 (by decide)).2⟩

/-! Claim C5. -/

/-- Claim C5: the level badge and its color are selected by inclusive
numeric thresholds — `ERR` red at or above error, `WRN` yellow at or above
warn, `INF` green at or above info, and `DBG` blue strictly below info
(including arbitrary levels below debug). -/
theorem c5_level_badge (l : Int) :
    (LevelError ≤ l → levelString l = "ERR".toList ∧ levelColor l = colorRed) ∧
    (LevelWarn ≤ l → l < LevelError →
      levelString l = "WRN".toList ∧ levelColor l = colorYellow) ∧
    (LevelInfo ≤ l → l < LevelWarn →
      levelString l = "INF".toList ∧ levelColor l = colorGreen) ∧
    (l < LevelInfo → levelString l = "DBG".toList ∧ levelColor l = colorBlue) := by
  simp only [levelString, levelColor, LevelError, LevelWarn, LevelInfo]
  refine ⟨fun h => ?_, fun h1 h2 => ?_, fun h1 h2 => ?_, fun h => ?_⟩
  · rw [if_pos h, if_pos h]; exact ⟨rfl, rfl⟩
  · rw [if_neg (by omega), if_pos h1, if_neg (by omega), if_pos h1]
    exact ⟨rfl, rfl⟩
  · rw [if_neg (by omega), if_neg (by omega), if_pos h1, if_neg (by omega),
      if_neg (by omega), if_pos h1]
    exact ⟨rfl, rfl⟩
  · rw [if_neg (by omega), if_neg (by omega), if_neg (by omega),
      if_neg (by omega), if_neg (by omega), if_neg (by omega)]
    exact ⟨rfl, rfl⟩

/-- Claim C5 witness: the four badge bands evaluated at 8, 4, 0 and -1. -/
theorem c5_level_badge_witness :
    (levelString 8 = "ERR".toList ∧ levelColor 8 = colorRed) ∧
    (levelString 4 = "WRN".toList ∧ levelColor 4 = colorYellow) ∧
    (levelString 0 = "INF".toList ∧ levelColor 0 = colorGreen) ∧
    (levelString (-1) = "DBG".toList ∧ levelColor (-1) = colorBlue) :=
  ⟨(c5_level_badge 8).1 (by decide),
   (c5_level_badge 4).2.1 (by decide) (by decide),
   (c5_level_badge 0).2.2.1 (by decide) (by decide),
   (c5_level_badge (-1)).2.2.2 (by decide)⟩

/-! Claim C10. -/

/-- Claim C10: binding the empty group name returns the receiver itself
unchanged, while a non-empty name yields a handler with the name appended
to the group path and every other field — options, writer reference, lock
reference, bound attributes, pre-rendered text — shared with the receiver. -/
theorem c10_withgroup (h : ColorHandler) (name : Str) :
    (name = [] → ColorHandler.WithGroup h name = h) ∧
    (name ≠ [] →
      (ColorHandler.WithGroup h name).groups = h.groups ++ [name] ∧
      (ColorHandler.WithGroup h name).opts = h.opts ∧
      (ColorHandler.WithGroup h name).output = h.output ∧
      (ColorHandler.WithGroup h name).mu = h.mu ∧
      (ColorHandler.WithGroup h name).attrs = h.attrs ∧
      (ColorHandler.WithGroup h name).preformat = h.preformat) := by
  constructor
  · intro hn
    rw [ColorHandler.WithGroup, if_pos hn]
  · intro hn
    rw [ColorHandler.WithGroup, if_neg hn]
    exact ⟨rfl, rfl, rfl, rfl, rfl, rfl⟩

/-- Claim C10 witness: the empty name is the identity on a concrete
handler; the name `g` appends to its group path sharing writer and lock. -/
theorem c10_withgroup_witness :
    ColorHandler.WithGroup sampleHandler [] = sampleHandler ∧
    (ColorHandler.WithGroup sampleHandler ['g']).groups =
      sampleHandler.groups ++ [['g']] ∧
    (ColorHandler.WithGroup sampleHandler ['g']).output =
      sampleHandler.output ∧
    (ColorHandler.WithGroup sampleHandler ['g']).mu = sampleHandler.mu :=
  ⟨(c10_withgroup sampleHandler []).1 rfl,
   ((c10_withgroup sampleHandler ['g']).2 (by decide)).1,
   ((c10_withgroup sampleHandler ['g']).2 (by decide)).2.2.1,
   ((c10_withgroup sampleHandler ['g']).2 (by decide)).2.2.2.1⟩


/-! Claim C7 and its helpers. -/

theorem lastSlashPos_none (l : Str) (h : '/' ∉ l) : lastSlashPos l = none := by
  induction l with
  | nil => rfl
  | cons c cs ih =>
    have hc : ¬(c = '/') := fun hh => h (by simp [hh])
    have hcs : '/' ∉ cs := fun hh => h (by simp [hh])
    rw [lastSlashPos, ih hcs, if_neg hc]

theorem lastSlashPos_split (pre seg : Str) (hseg : '/' ∉ seg) :
    lastSlashPos (pre ++ '/' :: seg) = some pre.length := by
  induction pre with
  | nil =>
    rw [List.nil_append, lastSlashPos, lastSlashPos_none seg hseg, if_pos rfl]
    rfl
  | cons c cs ih =>
    rw [List.cons_append, lastSlashPos, ih]
    rfl

theorem shortFile_split (pre seg : Str) (hseg : '/' ∉ seg) (hpre : pre ≠ []) :
    shortFile (pre ++ '/' :: seg) = seg := by
  rw [shortFile, lastSlashPos_split pre seg hseg]
  dsimp only
  have hlen : 1 ≤ pre.length := by
    cases pre with
    | nil => exact absurd rfl hpre
    | cons a t => simp
  rw [if_pos hlen]
  rw [show pre ++ '/' :: seg = (pre ++ ['/']) ++ seg by simp]
  exact List.drop_left' (by simp)

/-- Claim C7 counterexample: a record whose call-site token resolves to
file `/a.go`, whose only `'/'` sits at index 0, renders as `/a.go:5` — the
shortening loop runs its index only down to 1, so the leading slash does
not split and the rendered name is not the final path segment `a.go`. -/
theorem c7_counterexample :
    formatSource (fun _ => ("/a.go".toList, 5)) 1 = "/a.go:5".toList ∧
    "/a.go:5".toList ≠ "a.go:5".toList := by
  decide

/-- Claim C7 (amended): the call-site field is emitted iff source locations
are enabled and the record's PC token is nonzero (a zero token omits the
field entirely, with no placeholder); when emitted it is the color-wrapped
`shortName:line` for a nonempty resolved file (and empty text for an empty
one), where `shortName` is the segment after the last `'/'` occurring at a
positive index — a path whose only separator is a leading slash is kept
whole. -/
theorem c7_source_field (resolve : Resolver) (addSource : Bool) (pc : Nat) :
    (addSource = false ∨ pc = 0 → sourceFragment resolve addSource pc = []) ∧
    (addSource = true → pc ≠ 0 →
      sourceFragment resolve addSource pc =
        colorCyan ++ formatSource resolve pc ++ colorReset ++ [' ']) ∧
    ((resolve pc).1 ≠ [] →
      formatSource resolve pc =
        shortFile (resolve pc).1 ++ ':' :: (Nat.repr (resolve pc).2).toList) ∧
    ((resolve pc).1 = [] → formatSource resolve pc = []) ∧
    (∀ pre seg : Str, (resolve pc).1 = pre ++ '/' :: seg → '/' ∉ seg →
      pre ≠ [] → shortFile (resolve pc).1 = seg) := by
  refine ⟨?_, ?_, ?_, ?_, ?_⟩
  · intro h
    rcases h with h | h
    · rw [sourceFragment, if_neg (by simp [h])]
    · rw [sourceFragment, if_neg (by simp [h])]
  · intro h1 h2
    rw [sourceFragment, if_pos ⟨h1, h2⟩]
  · intro h
    rw [formatSource]
    simp only [ne_eq, h, not_false_iff, if_pos]
  · intro h
    rw [formatSource]
    simp [h]
  · intro pre seg hfile hseg hpre
    rw [hfile]
    exact shortFile_split pre seg hseg hpre

/-- Claim C7 witness: the amended statement evaluated on a resolver mapping
the token 7 to `src/a.go:25`, with the field present when enabled and
absent when the token is zero. -/
theorem c7_source_field_witness :
    sourceFragment (fun _ => ("src/a.go".toList, 25)) false 7 = [] ∧
    sourceFragment (fun _ => ("src/a.go".toList, 25)) true 7 =
      colorCyan ++ formatSource (fun _ => ("src/a.go".toList, 25)) 7
        ++ colorReset ++ [' '] ∧
    shortFile ((fun (_ : Nat) => ("src/a.go".toList, 25)) 7).1 = "a.go".toList :=
  ⟨(c7_source_field (fun _ => ("src/a.go".toList, 25)) false 7).1 (Or.inl rfl),
   (c7_source_field (fun _ => ("src/a.go".toList, 25)) true 7).2.1 rfl
     (by decide),
   (c7_source_field (fun _ => ("src/a.go".toList, 25)) true 7).2.2.2.2
     "src".toList "a.go".toList (by decide) (by decide) (by decide)⟩

/-! Claim C4. -/

/-- Claim C4: the context handler extracts, in configured key order, an
attribute for every recognized key present in the context (key in string
form, value unchanged); when at least one was found they are prepended
ahead of the record's own attributes on a record preserving time, level,
message and PC, and when none was found the record passes through
unmodified. -/
theorem c4_context_injection (keys : List Str) (ctxv : Ctx) (r : Record) :
    (extractCtx ctxv keys =
      Attrs.ofList (keys.filterMap fun k => (ctxv k).map fun v => (k, v))) ∧
    (extractCtx ctxv keys = .nil → ContextHandler.Handle keys ctxv r = r) ∧
    (extractCtx ctxv keys ≠ .nil →
      (ContextHandler.Handle keys ctxv r).attrs =
        Attrs.append (extractCtx ctxv keys) r.attrs ∧
      (ContextHandler.Handle keys ctxv r).time = r.time ∧
      (ContextHandler.Handle keys ctxv r).level = r.level ∧
      (ContextHandler.Handle keys ctxv r).message = r.message ∧
      (ContextHandler.Handle keys ctxv r).pc = r.pc) := by
  refine ⟨?_, ?_, ?_⟩
  · induction keys with
    | nil => rfl
    | cons k ks ih =>
      cases h : ctxv k with
      | none => simp [extractCtx, h, ih]
      | some v => simp [extractCtx, h, ih, Attrs.ofList]
  · intro h
    rw [ContextHandler.Handle, h]
  · intro h
    rcases hE : extractCtx ctxv keys with _ | ⟨k, v, rest⟩
    · exact absurd hE h
    · rw [ContextHandler.Handle, hE]
      exact ⟨rfl, rfl, rfl, rfl, rfl⟩

/-- Claim C4 witness: with a context carrying only a trace id, extraction
over the keys `trace_id, user_id` finds exactly the trace attribute and
prepends it to a concrete record's attributes. -/
theorem c4_context_injection_witness :
    extractCtx sampleCtx ["trace_id".toList, "user_id".toList] =
      Attrs.ofList (["trace_id".toList, "user_id".toList].filterMap
        fun k => (sampleCtx k).map fun v => (k, v)) ∧
    (ContextHandler.Handle ["trace_id".toList, "user_id".toList] sampleCtx
      sampleRecord).attrs =
      Attrs.append (extractCtx sampleCtx ["trace_id".toList, "user_id".toList])
        sampleRecord.attrs :=
  ⟨(c4_context_injection ["trace_id".toList, "user_id".toList] sampleCtx
      sampleRecord).1,
   ((c4_context_injection ["trace_id".toList, "user_id".toList] sampleCtx
      sampleRecord).2.2 (by decide)).1⟩

/-! Claim C8. -/

/-- Claim C8: the handle operation returns to its immediate caller exactly
the error value the sink's write produced (and makes exactly that one
write), while each of the four top-level severity functions ignores the
sink's error entirely — its observable behavior is identical under any two
sinks. -/
theorem c8_error_discard {E : Type} (resolve : Resolver)
    (sink sink2 : Sink E) (h : ColorHandler) (r : Record) (keys : List Str)
    (ctxv : Ctx) (now : GoTime) (pc : Nat) (msg : Str) (attrs : Attrs) :
    (ColorHandler.HandleRun resolve sink h r).2 =
      sink (ColorHandler.Handle resolve h r) ∧
    (ColorHandler.HandleRun resolve sink h r).1 =
      [ColorHandler.Handle resolve h r] ∧
    Debug resolve sink keys ctxv h now pc msg attrs =
      Debug resolve sink2 keys ctxv h now pc msg attrs ∧
    Info resolve sink keys ctxv h now pc msg attrs =
      Info resolve sink2 keys ctxv h now pc msg attrs ∧
    Warn resolve sink keys ctxv h now pc msg attrs =
      Warn resolve sink2 keys ctxv h now pc msg attrs ∧
    Error resolve sink keys ctxv h now pc msg attrs =
      Error resolve sink2 keys ctxv h now pc msg attrs := by
  refine ⟨rfl, rfl, ?_, ?_, ?_, ?_⟩
  · unfold Debug logWithCaller
    split <;> rfl
  · unfold Info logWithCaller
    split <;> rfl
  · unfold Warn logWithCaller
    split <;> rfl
  · unfold Error logWithCaller
    split <;> rfl


/-! Suffix characterization of the rendering loops, used for claim C6. -/

theorem isGroupVal_false_elim (v : Value) (hng : isGroupVal v = false) :
    ∀ a : Attrs, v = Value.group a → False := by
  intro a ha
  rw [ha] at hng
  simp [isGroupVal] at hng

theorem appendAttr_suffix_nongroup (ra : Option ReplaceFn) (k : Str)
    (v : Value) (gs : List Str) (hng : isGroupVal v = false) (buf : Str) :
    appendAttr ra buf k v gs = buf ++ appendAttrNE ra k v gs := by
  have hni := isGroupVal_false_elim v hng
  rw [appendAttr.eq_3 _ _ _ _ _ hni, appendAttrNE.eq_3 _ _ _ _ hni]
  cases hE : isEmptyAttr k v with
  | true => simp
  | false =>
    cases hH : hookResult ra gs k v <;> simp [List.append_assoc]

mutual

theorem appendAttr_suffix : ∀ (ra : Option ReplaceFn) (k : Str) (v : Value)
    (gs : List Str) (buf : Str), buf ≠ [] →
    appendAttr ra buf k v gs = buf ++ appendAttrNE ra k v gs
  | ra, k, .str s, gs, buf, _ =>
    appendAttr_suffix_nongroup ra k (.str s) gs rfl buf
  | ra, k, .time t, gs, buf, _ =>
    appendAttr_suffix_nongroup ra k (.time t) gs rfl buf
  | ra, k, .duration d, gs, buf, _ =>
    appendAttr_suffix_nongroup ra k (.duration d) gs rfl buf
  | ra, k, .nilv, gs, buf, _ =>
    appendAttr_suffix_nongroup ra k .nilv gs rfl buf
  | ra, k, .anyv r, gs, buf, _ =>
    appendAttr_suffix_nongroup ra k (.anyv r) gs rfl buf
  | ra, k, .group .nil, gs, buf, _ => by
    rw [appendAttr.eq_1, appendAttrNE.eq_1]
    cases hE : isEmptyAttr k (Value.group .nil) with
    | true => simp
    | false =>
      cases hH : hookResult ra gs k (Value.group .nil) <;>
        simp [List.append_assoc]
  | ra, k, .group (.cons k1 v1 rest), gs, buf, hb => by
    rw [appendAttr.eq_2, appendAttrNE.eq_2]
    cases hE : isEmptyAttr k (Value.group (.cons k1 v1 rest)) with
    | true => simp
    | false =>
      cases hH : hookResult ra gs k (Value.group (.cons k1 v1 rest)) with
      | dropped => simp
      | replaced k2 lv => simp [List.append_assoc]
      | kept =>
        dsimp only
        exact appendGroupAttrs_suffix ra (.cons k1 v1 rest) (gs ++ [k]) buf
          true hb

theorem appendGroupAttrs_suffix : ∀ (ra : Option ReplaceFn) (g : Attrs)
    (gs : List Str) (buf : Str) (first : Bool), buf ≠ [] →
    appendGroupAttrs ra buf g gs first = buf ++ attrsNE ra g gs
  | ra, .nil, gs, buf, first, _ => by
    rw [appendGroupAttrs.eq_1, attrsNE.eq_1]
    simp
  | ra, .cons k v rest, gs, buf, first, hb => by
    rw [appendGroupAttrs.eq_2, attrsNE.eq_2]
    rw [if_pos (Or.inr hb)]
    rw [appendAttr_suffix ra k v gs (buf ++ [' ']) (by simp)]
    rw [appendGroupAttrs_suffix ra rest gs
      (buf ++ [' '] ++ appendAttrNE ra k v gs) false (by simp)]
    simp [List.append_assoc]

end

theorem renderAttrList_suffix : ∀ (ra : Option ReplaceFn) (g : Attrs)
    (gs : List Str) (buf : Str), buf ≠ [] →
    renderAttrList ra buf g gs = buf ++ attrsNE ra g gs
  | ra, .nil, gs, buf, _ => by
    rw [renderAttrList.eq_1, attrsNE.eq_1]
    simp
  | ra, .cons k v rest, gs, buf, hb => by
    rw [renderAttrList.eq_2, attrsNE.eq_2]
    rw [if_pos hb]
    rw [appendAttr_suffix ra k v gs (buf ++ [' ']) (by simp)]
    rw [renderAttrList_suffix ra rest gs
      (buf ++ [' '] ++ appendAttrNE ra k v gs) (by simp)]
    simp [List.append_assoc]

theorem renderAttrList_append : ∀ (ra : Option ReplaceFn) (A B : Attrs)
    (gs : List Str) (buf : Str),
    renderAttrList ra buf (Attrs.append A B) gs =
      renderAttrList ra (renderAttrList ra buf A gs) B gs
  | ra, .nil, B, gs, buf => rfl
  | ra, .cons k v rest, B, gs, buf => by
    rw [show Attrs.append (.cons k v rest) B = .cons k v (Attrs.append rest B)
      from rfl]
    rw [renderAttrList.eq_2, renderAttrList.eq_2]
    exact renderAttrList_append ra rest B gs _

theorem Attrs.append_assoc : ∀ a b c : Attrs,
    Attrs.append (Attrs.append a b) c = Attrs.append a (Attrs.append b c)
  | .nil, b, c => rfl
  | .cons k v rest, b, c => by
    show Attrs.cons k v (Attrs.append (Attrs.append rest b) c) = _
    rw [Attrs.append_assoc rest b c]
    rfl

theorem appendAttr_eff_flat (ra : Option ReplaceFn) (k : Str) (v : Value)
    (gs : List Str) (k2 : Str) (v2 : Value)
    (he : effAttr ra gs k v = some (k2, v2)) (hng : isGroupVal v2 = false) :
    appendAttrNE ra k v gs =
      colorPurple ++ buildKey gs k2 ++ colorReset ++ '=' :: formatValue v2 ∧
    ∀ buf, appendAttr ra buf k v gs = buf ++ appendAttrNE ra k v gs := by
  unfold effAttr at he
  cases hE : isEmptyAttr k v with
  | true => rw [hE] at he; simp at he
  | false =>
    rw [hE] at he
    simp only [Bool.false_eq_true, if_false] at he
    cases hH : hookResult ra gs k v with
    | dropped => rw [hH] at he; simp at he
    | replaced k3 lv =>
      rw [hH] at he
      simp only [Option.some.injEq, Prod.mk.injEq] at he
      obtain ⟨hk, hv⟩ := he
      subst hk; subst hv
      constructor
      · rcases v with s | t | d | _ | r | g
        · rw [appendAttrNE.eq_3 ra k (.str s) gs
            (isGroupVal_false_elim (.str s) rfl), hE, hH]
        · rw [appendAttrNE.eq_3 ra k (.time t) gs
            (isGroupVal_false_elim (.time t) rfl), hE, hH]
        · rw [appendAttrNE.eq_3 ra k (.duration d) gs
            (isGroupVal_false_elim (.duration d) rfl), hE, hH]
        · rw [appendAttrNE.eq_3 ra k .nilv gs
            (isGroupVal_false_elim .nilv rfl), hE, hH]
        · rw [appendAttrNE.eq_3 ra k (.anyv r) gs
            (isGroupVal_false_elim (.anyv r) rfl), hE, hH]
        · cases g with
          | nil => rw [appendAttrNE.eq_1, hE, hH]
          | cons k1 v1 rest => rw [appendAttrNE.eq_2, hE, hH]
      · intro buf
        rcases v with s | t | d | _ | r | g
        · exact appendAttr_suffix_nongroup ra k (.str s) gs rfl buf
        · exact appendAttr_suffix_nongroup ra k (.time t) gs rfl buf
        · exact appendAttr_suffix_nongroup ra k (.duration d) gs rfl buf
        · exact appendAttr_suffix_nongroup ra k .nilv gs rfl buf
        · exact appendAttr_suffix_nongroup ra k (.anyv r) gs rfl buf
        · cases g with
          | nil => rw [appendAttr.eq_1, appendAttrNE.eq_1, hE, hH]; simp
          | cons k1 v1 rest =>
            rw [appendAttr.eq_2, appendAttrNE.eq_2, hE, hH]
            simp [List.append_assoc]
    | kept =>
      rw [hH] at he
      simp only [Option.some.injEq, Prod.mk.injEq] at he
      obtain ⟨hk, hv⟩ := he
      subst hk; subst hv
      constructor
      · rw [appendAttrNE.eq_3 _ _ _ _ (isGroupVal_false_elim _ hng), hE, hH]
      · exact appendAttr_suffix_nongroup ra k v gs hng


/-! Claim C6. -/

theorem joinPre_nil (p : Str) : joinPre p [] = p := by
  simp [joinPre]

theorem joinPre_joinPre (p X Y : Str) (hX : X ≠ []) (hY : Y ≠ []) :
    joinPre (joinPre p X) Y = joinPre p (X ++ ' ' :: Y) := by
  unfold joinPre
  rw [if_pos hX, if_pos hY, if_pos (by simp [hX] : X ++ ' ' :: Y ≠ [])]
  by_cases hp : p = []
  · subst hp
    simp [hX]
  · rw [if_pos hp, if_pos (by simp [hp])]
    simp

/-- An attribute sequence on which binding fails to compose: a single
group-valued attribute with one child. -/
def sampleGroupAttrs : Attrs :=
  .cons ['g'] (.group (.cons ['c'] (.anyv ['2']) .nil)) .nil

/-- A single flat attribute `a=1`. -/
def sampleFlatA : Attrs := .cons ['a'] (.anyv ['1']) .nil

/-- A single flat attribute `b=2`. -/
def sampleFlatB : Attrs := .cons ['b'] (.anyv ['2']) .nil

/-- Claim C6 counterexample: binding `a=1` and then the group attribute
`g(c=2)` yields pre-rendered text with a single separating space, while
binding both in one call renders the group's child behind two spaces (the
group loop adds its own space because the shared buffer is already
nonempty) — the two handlers render different bytes for the same record. -/
theorem c6_counterexample :
    (ColorHandler.WithAttrs (ColorHandler.WithAttrs sampleHandler sampleFlatA)
        sampleGroupAttrs).preformat ≠
      (ColorHandler.WithAttrs sampleHandler
        (Attrs.append sampleFlatA sampleGroupAttrs)).preformat ∧
    ColorHandler.Handle (fun _ => ([], 0))
        (ColorHandler.WithAttrs (ColorHandler.WithAttrs sampleHandler
          sampleFlatA) sampleGroupAttrs) sampleRecord ≠
      ColorHandler.Handle (fun _ => ([], 0))
        (ColorHandler.WithAttrs sampleHandler
          (Attrs.append sampleFlatA sampleGroupAttrs)) sampleRecord := by
  decide

/-- Claim C6 (amended): binding `A` and then `B` equals binding `A ++ B` in
one call — pre-rendered text and all other fields — provided `B` is empty
or its first attribute renders as a flat fragment: it survives the
empty-attribute skip and the replacement hook as a non-group attribute.
(A first attribute that renders nothing, or a group-valued one, breaks the
equality, as the counterexample shows.) -/
theorem c6_amended (h : ColorHandler) (A B : Attrs)
    (hB : flatHead h.opts.replaceAttr h.groups B) :
    ColorHandler.WithAttrs (ColorHandler.WithAttrs h A) B =
      ColorHandler.WithAttrs h (Attrs.append A B) := by
  unfold ColorHandler.WithAttrs
  dsimp only
  rw [ColorHandler.mk.injEq]
  refine ⟨rfl, rfl, rfl, Attrs.append_assoc h.attrs A B, rfl, ?_⟩
  rw [renderAttrList_append]
  rcases B with _ | ⟨k, v, rest⟩
  · rw [renderAttrList.eq_1, renderAttrList.eq_1, joinPre_nil]
  · obtain ⟨k2, v2, he, hng⟩ := hB
    obtain ⟨hNE, hSuf⟩ := appendAttr_eff_flat h.opts.replaceAttr k v h.groups
      k2 v2 he hng
    have hfrag : appendAttrNE h.opts.replaceAttr k v h.groups ≠ [] := by
      rw [hNE]
      simp [colorPurple]
    have hY : renderAttrList h.opts.replaceAttr [] (.cons k v rest) h.groups =
        appendAttrNE h.opts.replaceAttr k v h.groups
          ++ attrsNE h.opts.replaceAttr rest h.groups := by
      rw [renderAttrList.eq_2, if_neg (by simp), hSuf []]
      simp only [List.nil_append]
      exact renderAttrList_suffix h.opts.replaceAttr rest h.groups _ hfrag
    have hYne : renderAttrList h.opts.replaceAttr [] (.cons k v rest) h.groups
        ≠ [] := by
      rw [hY]
      simp [hfrag]
    by_cases hX : renderAttrList h.opts.replaceAttr [] A h.groups = []
    · rw [hX, joinPre_nil]
    · have hZ : renderAttrList h.opts.replaceAttr
          (renderAttrList h.opts.replaceAttr [] A h.groups)
          (.cons k v rest) h.groups =
          renderAttrList h.opts.replaceAttr [] A h.groups ++ ' ' ::
            renderAttrList h.opts.replaceAttr [] (.cons k v rest) h.groups := by
        rw [renderAttrList_suffix h.opts.replaceAttr _ h.groups _ hX,
          attrsNE.eq_2, hY]
        simp
      rw [hZ, joinPre_joinPre _ _ _ hX hYne]

/-- Claim C6 witness: binding `a=1` then the flat attribute `b=2` equals
binding both in one call on a concrete handler. -/
theorem c6_amended_witness :
    ColorHandler.WithAttrs (ColorHandler.WithAttrs sampleHandler sampleFlatA)
      sampleFlatB =
    ColorHandler.WithAttrs sampleHandler
      (Attrs.append sampleFlatA sampleFlatB) :=
  c6_amended sampleHandler sampleFlatA sampleFlatB
    ⟨['b'], .anyv ['2'], by decide, by decide⟩


/-! Newline-freeness of the rendered line, used for claim C2. -/

theorem hexDig_ne_newline : ∀ n : Nat, n < 16 → hexDig n ≠ '\n' := by
  decide

theorem hexFixed_no_newline : ∀ (w n : Nat), '\n' ∉ hexFixed w n
  | 0, n => by simp [hexFixed]
  | w + 1, n => by
    rw [hexFixed]
    intro hmem
    rcases List.mem_append.mp hmem with hmem | hmem
    · exact hexFixed_no_newline w (n / 16) hmem
    · rw [List.mem_singleton] at hmem
      exact hexDig_ne_newline (n % 16) (Nat.mod_lt _ (by norm_num)) hmem.symm

theorem escChar_no_newline (c : Char) : '\n' ∉ escChar c := by
  unfold escChar
  by_cases h1 : c = '"'
  · rw [if_pos h1]; decide
  rw [if_neg h1]
  by_cases h2 : c = '\\'
  · rw [if_pos h2]; decide
  rw [if_neg h2]
  by_cases h3 : c = '\n'
  · rw [if_pos h3]; decide
  rw [if_neg h3]
  by_cases h4 : c = '\r'
  · rw [if_pos h4]; decide
  rw [if_neg h4]
  by_cases h5 : c = '\t'
  · rw [if_pos h5]; decide
  rw [if_neg h5]
  by_cases h6 : c = '\x07'
  · rw [if_pos h6]; decide
  rw [if_neg h6]
  by_cases h7 : c = '\x08'
  · rw [if_pos h7]; decide
  rw [if_neg h7]
  by_cases h8 : c = '\x0b'
  · rw [if_pos h8]; decide
  rw [if_neg h8]
  by_cases h9 : c = '\x0c'
  · rw [if_pos h9]; decide
  rw [if_neg h9]
  by_cases h10 : 0x20 ≤ c.toNat ∧ c.toNat ≤ 0x7e
  · rw [if_pos h10]
    rw [List.mem_singleton]
    intro hc
    rw [← hc] at h10
    exact absurd h10 (by decide)
  rw [if_neg h10]
  by_cases h11 : c.toNat < 0x80
  · rw [if_pos h11]
    intro hmem
    rcases hmem with _ | ⟨_, hmem⟩
    rcases hmem with _ | ⟨_, hmem⟩
    exact hexFixed_no_newline 2 c.toNat hmem
  rw [if_neg h11]
  by_cases h12 : c.toNat < 0x10000
  · rw [if_pos h12]
    intro hmem
    rcases hmem with _ | ⟨_, hmem⟩
    rcases hmem with _ | ⟨_, hmem⟩
    exact hexFixed_no_newline 4 c.toNat hmem
  rw [if_neg h12]
  intro hmem
  rcases hmem with _ | ⟨_, hmem⟩
  rcases hmem with _ | ⟨_, hmem⟩
  exact hexFixed_no_newline 8 c.toNat hmem

theorem quoteBody_no_newline : ∀ s : Str, '\n' ∉ quoteBody s
  | [] => by simp [quoteBody]
  | c :: cs => by
    rw [quoteBody]
    intro hmem
    rcases List.mem_append.mp hmem with hmem | hmem
    · exact escChar_no_newline c hmem
    · exact quoteBody_no_newline cs hmem

theorem goQuote_no_newline (s : Str) : '\n' ∉ goQuote s := by
  rw [goQuote]
  intro hmem
  rcases hmem with _ | ⟨_, hmem⟩
  rcases List.mem_append.mp hmem with hmem | hmem
  · exact quoteBody_no_newline s hmem
  · simp at hmem

theorem needsQuoting_false_no_newline (s : Str) (h : needsQuoting s = false) :
    '\n' ∉ s := by
  intro hmem
  have := List.any_eq_false.mp h '\n' hmem
  simp at this

theorem formatValue_no_newline (v : Value) (hv : nlOkValue v = true)
    (hng : isGroupVal v = false) : '\n' ∉ formatValue v := by
  rcases v with s | t | d | _ | r | g
  · rw [formatValue]
    cases hq : needsQuoting s with
    | true => exact goQuote_no_newline s
    | false => exact needsQuoting_false_no_newline s hq
  · exact of_decide_eq_true hv
  · exact of_decide_eq_true hv
  · rw [formatValue]; decide
  · exact of_decide_eq_true hv
  · simp [isGroupVal] at hng

theorem buildKey_no_newline : ∀ (gs : List Str) (key : Str),
    '\n' ∉ key → (∀ g ∈ gs, '\n' ∉ g) → '\n' ∉ buildKey gs key
  | [], key, hk, _ => hk
  | g :: gs, key, hk, hgs => by
    rw [show buildKey (g :: gs) key = buildKey gs (g ++ '.' :: key) from rfl]
    refine buildKey_no_newline gs (g ++ '.' :: key) ?_ fun x hx => hgs x (by simp [hx])
    intro hmem
    rcases List.mem_append.mp hmem with hmem | hmem
    · exact hgs g (by simp) hmem
    · rcases hmem with _ | ⟨_, hmem⟩
      exact hk hmem

theorem levelString_no_newline (l : Int) : '\n' ∉ levelString l := by
  unfold levelString
  by_cases h1 : LevelError ≤ l
  · rw [if_pos h1]; decide
  rw [if_neg h1]
  by_cases h2 : LevelWarn ≤ l
  · rw [if_pos h2]; decide
  rw [if_neg h2]
  by_cases h3 : LevelInfo ≤ l
  · rw [if_pos h3]; decide
  rw [if_neg h3]; decide

theorem levelColor_no_newline (l : Int) : '\n' ∉ levelColor l := by
  unfold levelColor
  by_cases h1 : LevelError ≤ l
  · rw [if_pos h1]; decide
  rw [if_neg h1]
  by_cases h2 : LevelWarn ≤ l
  · rw [if_pos h2]; decide
  rw [if_neg h2]
  by_cases h3 : LevelInfo ≤ l
  · rw [if_pos h3]; decide
  rw [if_neg h3]; decide


theorem appendAttr_no_newline_nongroup (k : Str) (v : Value) (gs : List Str)
    (buf : Str) (hng : isGroupVal v = false) (hbuf : '\n' ∉ buf)
    (hk : '\n' ∉ k) (hv : nlOkValue v = true)
    (hgs : ∀ g ∈ gs, '\n' ∉ g) : '\n' ∉ appendAttr none buf k v gs := by
  rw [appendAttr.eq_3 _ _ _ _ _ (isGroupVal_false_elim v hng)]
  cases hE : isEmptyAttr k v with
  | true => exact hbuf
  | false =>
    dsimp only [hookResult]
    intro hmem
    simp only [List.mem_append, List.mem_cons] at hmem
    rcases hmem with (((h | h) | h) | h) | h | h
    · exact hbuf h
    · exact absurd h (by decide)
    · exact buildKey_no_newline gs k hk hgs h
    · exact absurd h (by decide)
    · exact absurd h (by decide)
    · exact formatValue_no_newline v hv hng h

mutual

theorem appendAttr_no_newline : ∀ (k : Str) (v : Value) (gs : List Str)
    (buf : Str), '\n' ∉ buf → '\n' ∉ k → nlOkValue v = true →
    (∀ g ∈ gs, '\n' ∉ g) → '\n' ∉ appendAttr none buf k v gs
  | k, .str s, gs, buf, hbuf, hk, hv, hgs =>
    appendAttr_no_newline_nongroup k (.str s) gs buf rfl hbuf hk hv hgs
  | k, .time t, gs, buf, hbuf, hk, hv, hgs =>
    appendAttr_no_newline_nongroup k (.time t) gs buf rfl hbuf hk hv hgs
  | k, .duration d, gs, buf, hbuf, hk, hv, hgs =>
    appendAttr_no_newline_nongroup k (.duration d) gs buf rfl hbuf hk hv hgs
  | k, .nilv, gs, buf, hbuf, hk, hv, hgs =>
    appendAttr_no_newline_nongroup k .nilv gs buf rfl hbuf hk hv hgs
  | k, .anyv r, gs, buf, hbuf, hk, hv, hgs =>
    appendAttr_no_newline_nongroup k (.anyv r) gs buf rfl hbuf hk hv hgs
  | k, .group .nil, gs, buf, hbuf, _, _, _ => by
    rw [appendAttr.eq_1]
    cases hE : isEmptyAttr k (Value.group .nil) with
    | true => exact hbuf
    | false => dsimp only [hookResult]; exact hbuf
  | k, .group (.cons k1 v1 rest), gs, buf, hbuf, hk, hv, hgs => by
    rw [appendAttr.eq_2]
    cases hE : isEmptyAttr k (Value.group (.cons k1 v1 rest)) with
    | true => exact hbuf
    | false =>
      dsimp only [hookResult]
      refine appendGroupAttrs_no_newline (.cons k1 v1 rest) (gs ++ [k]) buf
        true hbuf hv ?_
      intro g hg
      rcases List.mem_append.mp hg with hg | hg
      · exact hgs g hg
      · rw [List.mem_singleton] at hg
        rw [hg]
        exact hk

theorem appendGroupAttrs_no_newline : ∀ (g : Attrs) (gs : List Str)
    (buf : Str) (first : Bool), '\n' ∉ buf → nlOkAttrs g = true →
    (∀ x ∈ gs, '\n' ∉ x) → '\n' ∉ appendGroupAttrs none buf g gs first
  | .nil, gs, buf, first, hbuf, _, _ => by
    rw [appendGroupAttrs.eq_1]
    exact hbuf
  | .cons k v rest, gs, buf, first, hbuf, hg, hgs => by
    rw [appendGroupAttrs.eq_2]
    simp only [nlOkAttrs, Bool.and_eq_true, decide_eq_true_eq] at hg
    have hbuf1 : '\n' ∉ (if first = false ∨ buf ≠ [] then buf ++ [' '] else buf) := by
      split
      · intro hmem
        rcases List.mem_append.mp hmem with h | h
        · exact hbuf h
        · simp at h
      · exact hbuf
    exact appendGroupAttrs_no_newline rest gs _ false
      (appendAttr_no_newline k v gs _ hbuf1 hg.1.1 hg.1.2 hgs) hg.2 hgs

end

theorem renderRecordAttrs_no_newline : ∀ (g : Attrs) (gs : List Str)
    (buf : Str), '\n' ∉ buf → nlOkAttrs g = true → (∀ x ∈ gs, '\n' ∉ x) →
    '\n' ∉ renderRecordAttrs none buf g gs
  | .nil, gs, buf, hbuf, _, _ => hbuf
  | .cons k v rest, gs, buf, hbuf, hg, hgs => by
    rw [renderRecordAttrs.eq_2]
    simp only [nlOkAttrs, Bool.and_eq_true, decide_eq_true_eq] at hg
    have hbuf1 : '\n' ∉ buf ++ [' '] := by
      intro hmem
      rcases List.mem_append.mp hmem with h | h
      · exact hbuf h
      · simp at h
    exact renderRecordAttrs_no_newline rest gs _
      (appendAttr_no_newline k v gs _ hbuf1 hg.1.1 hg.1.2 hgs) hg.2 hgs

theorem nlOkAttrs_append : ∀ a b : Attrs,
    nlOkAttrs (Attrs.append a b) = (nlOkAttrs a && nlOkAttrs b)
  | .nil, b => by simp [Attrs.append, nlOkAttrs]
  | .cons k v rest, b => by
    show nlOkAttrs (.cons k v (Attrs.append rest b)) = _
    rw [nlOkAttrs, nlOkAttrs, nlOkAttrs_append rest b]
    simp [Bool.and_assoc]

theorem contextHandle_parts (keys : List Str) (ctxv : Ctx) (r : Record) :
    (ContextHandler.Handle keys ctxv r).time = r.time ∧
    (ContextHandler.Handle keys ctxv r).level = r.level ∧
    (ContextHandler.Handle keys ctxv r).message = r.message ∧
    (ContextHandler.Handle keys ctxv r).pc = r.pc ∧
    ((ContextHandler.Handle keys ctxv r).attrs = r.attrs ∨
      (ContextHandler.Handle keys ctxv r).attrs =
        Attrs.append (extractCtx ctxv keys) r.attrs) := by
  unfold ContextHandler.Handle
  cases hE : extractCtx ctxv keys with
  | nil => exact ⟨rfl, rfl, rfl, rfl, Or.inl rfl⟩
  | cons k v rest => exact ⟨rfl, rfl, rfl, rfl, Or.inr rfl⟩

theorem timeFragment_some_no_newline (now : GoTime)
    (h : '\n' ∉ now.handleFmt) : '\n' ∉ timeFragment none (some now) := by
  show '\n' ∉ colorGray ++ now.handleFmt ++ colorReset ++ [' ']
  intro hmem
  simp only [List.mem_append, List.mem_singleton] at hmem
  rcases hmem with ((hm | hm) | hm) | hm
  · exact absurd hm (by decide)
  · exact h hm
  · exact absurd hm (by decide)
  · exact absurd hm (by decide)

theorem levelFragment_no_newline (l : Int) : '\n' ∉ levelFragment l := by
  unfold levelFragment
  intro hmem
  simp only [List.mem_append, List.mem_singleton] at hmem
  rcases hmem with ((hm | hm) | hm) | hm
  · exact levelColor_no_newline l hm
  · exact levelString_no_newline l hm
  · exact absurd hm (by decide)
  · exact absurd hm (by decide)

theorem sourceFragment_no_newline (resolve : Resolver) (addSource : Bool)
    (pc : Nat) (h : '\n' ∉ formatSource resolve pc) :
    '\n' ∉ sourceFragment resolve addSource pc := by
  unfold sourceFragment
  split
  · intro hmem
    simp only [List.mem_append, List.mem_singleton] at hmem
    rcases hmem with ((hm | hm) | hm) | hm
    · exact absurd hm (by decide)
    · exact h hm
    · exact absurd hm (by decide)
    · exact absurd hm (by decide)
  · simp

theorem messageFragment_no_newline (msg : Str) (h : '\n' ∉ msg) :
    '\n' ∉ messageFragment msg := by
  unfold messageFragment
  intro hmem
  simp only [List.mem_append] at hmem
  rcases hmem with (hm | hm) | hm
  · exact absurd hm (by decide)
  · exact h hm
  · exact absurd hm (by decide)

theorem preformatFragment_no_newline (p : Str) (h : '\n' ∉ p) :
    '\n' ∉ preformatFragment p := by
  unfold preformatFragment
  split
  · intro hmem
    rcases hmem with _ | ⟨_, hm⟩
    exact h hm
  · simp


/-! Claim C2. -/

/-- Claim C2 counterexample: an enabled call whose message contains a
newline writes content holding two newline bytes — not exactly one line
ending in exactly one newline. -/
theorem c2_counterexample :
    (logWithCaller (fun _ => ([], 0)) (fun _ => (none : Option Unit)) []
        (fun _ => none) sampleHandler 0 sampleTime 0 ('a' :: '\n' :: ['b'])
        .nil).map (fun l => l.count '\n') = [2] := by
  decide

/-- Claim C2 (amended): a call below the configured minimum level
(defaulting to info) writes nothing to the sink; a call at or above it
makes exactly one write, whose content ends in a newline byte; and that
content contains exactly one newline — at the end — provided no
replacement hook is configured and the message, the timestamp and
call-site renderings, the pre-rendered bound text, the group names, and
the attribute keys and non-string value renderings are newline-free
(string values need no proviso: quoting escapes their newlines). -/
theorem c2_amended {E : Type} (resolve : Resolver) (sink : Sink E)
    (keys : List Str) (ctxv : Ctx) (h : ColorHandler) (level : Int)
    (now : GoTime) (pc : Nat) (msg : Str) (attrs : Attrs) :
    (level < h.opts.level.getD LevelInfo →
      logWithCaller resolve sink keys ctxv h level now pc msg attrs = []) ∧
    (h.opts.level.getD LevelInfo ≤ level →
      ∃ body, logWithCaller resolve sink keys ctxv h level now pc msg attrs
        = [body ++ ['\n']]) ∧
    (h.opts.level.getD LevelInfo ≤ level →
      h.opts.replaceAttr = none →
      '\n' ∉ now.handleFmt →
      '\n' ∉ formatSource resolve pc →
      '\n' ∉ msg →
      '\n' ∉ h.preformat →
      (∀ g ∈ h.groups, '\n' ∉ g) →
      nlOkAttrs attrs = true →
      nlOkAttrs (extractCtx ctxv keys) = true →
      ∃ body, logWithCaller resolve sink keys ctxv h level now pc msg attrs
        = [body ++ ['\n']] ∧ '\n' ∉ body) := by
  refine ⟨?_, ?_, ?_⟩
  · intro hlt
    unfold logWithCaller
    rw [if_neg]
    simp only [ColorHandler.Enabled, decide_eq_true_eq]
    omega
  · intro hge
    unfold logWithCaller ColorHandler.HandleRun ColorHandler.Handle
    have hEn : ColorHandler.Enabled h level = true := by
      simp only [ColorHandler.Enabled, decide_eq_true_eq]
      exact hge
    rw [if_pos hEn]
    dsimp only
    exact ⟨_, rfl⟩
  · intro hge hra hnow hsrc hmsg hpre hgs hattrs hctx
    unfold logWithCaller ColorHandler.HandleRun ColorHandler.Handle
    have hEn : ColorHandler.Enabled h level = true := by
      simp only [ColorHandler.Enabled, decide_eq_true_eq]
      exact hge
    rw [if_pos hEn]
    dsimp only
    refine ⟨_, rfl, ?_⟩
    obtain ⟨ht, hl, hm2, hp2, hOr⟩ := contextHandle_parts keys ctxv
      { time := some now, level := level, message := msg, pc := pc,
        attrs := attrs }
    rw [hra, ht, hl, hm2, hp2]
    have hbufAll : '\n' ∉ timeFragment none (some now) ++ levelFragment level
        ++ sourceFragment resolve h.opts.addSource pc ++ messageFragment msg
        ++ preformatFragment h.preformat := by
      intro hmem
      simp only [List.mem_append] at hmem
      rcases hmem with (((hm | hm) | hm) | hm) | hm
      · exact timeFragment_some_no_newline now hnow hm
      · exact levelFragment_no_newline level hm
      · exact sourceFragment_no_newline resolve h.opts.addSource pc hsrc hm
      · exact messageFragment_no_newline msg hmsg hm
      · exact preformatFragment_no_newline h.preformat hpre hm
    rcases hOr with hA | hA
    · rw [hA]
      exact renderRecordAttrs_no_newline _ _ _ hbufAll hattrs hgs
    · rw [hA]
      refine renderRecordAttrs_no_newline _ _ _ hbufAll ?_ hgs
      rw [nlOkAttrs_append]
      simp [hattrs, hctx]

/-- Claim C2 witness: on a concrete handler with default minimum level, a
debug-level call writes nothing, and an info-level call writes a single
newline-terminated line containing no interior newline. -/
theorem c2_amended_witness :
    logWithCaller (fun _ => ([], 0)) (fun _ => (none : Option Unit)) []
      (fun _ => none) sampleHandler (-1) sampleTime 0 ['m'] .nil = [] ∧
    ∃ body,
      logWithCaller (fun _ => ([], 0)) (fun _ => (none : Option Unit)) []
        (fun _ => none) sampleHandler 0 sampleTime 0 ['m'] .nil =
        [body ++ ['\n']] ∧ '\n' ∉ body :=
  ⟨(c2_amended (fun _ => ([], 0)) (fun _ => (none : Option Unit)) []
      (fun _ => none) sampleHandler (-1) sampleTime 0 ['m'] .nil).1
      (by decide),
   (c2_amended (fun _ => ([], 0)) (fun _ => (none : Option Unit)) []
      (fun _ => none) sampleHandler 0 sampleTime 0 ['m'] .nil).2.2
      (by decide) rfl (by decide) (by decide) (by decide) (by decide)
      (by simp [sampleHandler]) (by decide) (by decide)⟩

end Xlog
